import Mathlib

/-!
Verification of `generate_template.py` (repository `abstract-folder`).

The script walks a hardcoded nested dictionary and materializes it on disk as
directories and placeholder files.  We shallowly embed:

* the Python value shape handled by `build_structure` (`PyVal` / `PyDict`:
  dictionaries with insertion-ordered string keys, lists of file-name strings,
  and any other value, which the code silently skips);
* the string manipulation of line 46
  (`file_name.replace('.md', '').replace('_', ' ')`) as single-pass,
  left-to-right, non-overlapping substring replacement on character lists,
  matching Python `str.replace` for non-empty patterns;
* `build_structure` itself as a pure function producing the ordered trace of
  filesystem operations it performs (`FSOp`): `os.makedirs(path, exist_ok)`
  and `open(path, "w") / write(content)`;
* a filesystem state (`FS`): a set of existing directories and a map from
  file paths to contents.  `os.makedirs` creates the named directory and all
  of its missing ancestors and, with `exist_ok=True`, never fails on a
  pre-existing directory; `open(_, "w")` truncates and overwrites.
  POSIX `os.path.join` of a path with a relative component is modelled as
  concatenation with a `/` separator.  Directory/file name collisions
  (a file already existing where a directory is required) are outside the
  model, as are failures other than the injected ones of `runUntilFail`.
-/

/-- One step of Python `s.replace(".md", "")` (line 46): scan left to right,
removing each non-overlapping occurrence of `.md` in a single pass. -/
def stripMd : List Char → List Char
  | '.' :: 'm' :: 'd' :: rest => stripMd rest
  | c :: rest => c :: stripMd rest
  | [] => []

/-- Python `s.replace("_", " ")` (line 46): replace every underscore by a
space. -/
def underscoreToSpace : List Char → List Char
  | '_' :: rest => ' ' :: underscoreToSpace rest
  | c :: rest => c :: underscoreToSpace rest
  | [] => []

/-- The title derived from a file name by line 46 of the source:
`file_name.replace('.md', '').replace('_', ' ')`. -/
def pyTitle (fileName : String) : String :=
  String.mk (underscoreToSpace (stripMd fileName.data))

/-- The placeholder content written for `fileName` by lines 45–46 of the
source. -/
def fileContent (fileName : String) : String :=
  "# " ++ pyTitle fileName ++ "\n\nTemplate content for " ++ fileName ++ "."

/-- Modelled from the spec: the title of the placeholder-generation rule,
`fileName` with a trailing `.md` extension stripped if present, then every
underscore replaced by a space.  Used only to compare the spec's wording with
the code's `pyTitle`. -/
def specTitle (fileName : String) : String :=
  let base :=
    match fileName.data.reverse with
    | 'd' :: 'm' :: '.' :: rest => rest.reverse
    | _ => fileName.data
  String.mk (underscoreToSpace base)

mutual

/-- A Python value as dispatched on by `build_structure` (lines 36–47):
a dict, a list of file names, or anything else (silently skipped). -/
inductive PyVal where
  | dict : PyDict → PyVal
  | list : List String → PyVal
  | other : PyVal

/-- A Python dict in insertion order: the `(name, content)` pairs that
`structure.items()` yields on line 34. -/
inductive PyDict where
  | nil : PyDict
  | cons : String → PyVal → PyDict → PyDict

end

/-- POSIX `os.path.join` (lines 35 and 44) for a relative right component. -/
def pathJoin (a b : String) : String :=
  a ++ "/" ++ b

/-- A filesystem operation performed by `build_structure`:
`os.makedirs(path, exist_ok)` or writing `content` to `path` opened with
mode `"w"`. -/
inductive FSOp where
  | makedirs : String → Bool → FSOp
  | write : String → String → FSOp
deriving DecidableEq

mutual

/-- The ordered trace of filesystem operations of
`build_structure(current_path, structure)` (lines 33–47) over a whole dict. -/
def buildEntries (cur : String) : PyDict → List FSOp
  | .nil => []
  | .cons name v rest => buildEntry cur name v ++ buildEntries cur rest

/-- The operations for a single `(name, content)` pair of the loop body
(lines 35–47): a dict recurses after `os.makedirs(path, exist_ok=True)`; a
list creates the directory then writes each placeholder file; anything else
matches neither `isinstance` test and is skipped. -/
def buildEntry (cur name : String) : PyVal → List FSOp
  | .dict children =>
      FSOp.makedirs (pathJoin cur name) true :: buildEntries (pathJoin cur name) children
  | .list files =>
      FSOp.makedirs (pathJoin cur name) true ::
        files.map (fun fn => FSOp.write (pathJoin (pathJoin cur name) fn) (fileContent fn))
  | .other => []

end

/-- The hardcoded template of `create_template` (lines 8–31). -/
def template : PyDict :=
  .cons "University" (.dict
    (.cons "Semester 1" (.dict
      (.cons "Computer Science 101" (.list ["Syllabus.md", "Notes.md", "Assignment_1.md"])
      (.cons "Mathematics" (.list ["Calculus_Notes.md", "Formula_Sheet.md"])
      (.cons "Physics" (.list ["Lab_Report.md"]) .nil))))
    (.cons "Resources" (.list ["Library_Links.md", "Student_Handbook.md"]) .nil)))
  (.cons "Work" (.dict
    (.cons "Projects" (.dict
      (.cons "Alpha" (.list ["Spec.md", "Timeline.md"])
      (.cons "Beta" (.list ["Feedback.md"]) .nil)))
    (.cons "Meetings" (.list ["Weekly_Sync.md", "One_on_One.md"])
    (.cons "Admin" (.list ["Timesheet.md", "Expenses.md"]) .nil))))
  (.cons "Notes" (.dict
    (.cons "Reading List" (.list ["Books_to_Read.md", "Articles.md"])
    (.cons "Ideas" (.list ["App_Idea.md", "Blog_Posts.md"])
    (.cons "Journal" (.list ["2024-01-01.md"]) .nil))))
  (.cons "Archive" (.dict .nil) .nil)))

/-- The operation trace of `create_template(base_path)` (lines 4–51). -/
def createTemplate (basePath : String) : List FSOp :=
  buildEntries basePath template

/-- Filesystem state: the set of existing directories and the map from file
paths to file contents, as an association list. -/
structure FS where
  dirs : List String
  files : List (String × String)
deriving DecidableEq

/-- Content of the file at `p`, or `none` if no such file exists. -/
def lookupFile : List (String × String) → String → Option String
  | [], _ => none
  | (q, c) :: rest, p => if q = p then some c else lookupFile rest p

/-- Truncate-and-overwrite semantics of `open(path, "w")` followed by a write:
replace the binding of `p` in place, or append a new one. -/
def setFile : List (String × String) → String → String → List (String × String)
  | [], p, c => [(p, c)]
  | (q, c0) :: rest, p, c => if q = p then (p, c) :: rest else (q, c0) :: setFile rest p c

/-- The strict ancestors of a character-list path: for every decomposition
`pre ++ [sep] ++ post` with `sep = '/'`, the prefix `pre`. -/
def ancPrefixes : List Char → List (List Char)
  | [] => []
  | c :: rest =>
      (if c = '/' then [([] : List Char)] else []) ++ (ancPrefixes rest).map (fun l => c :: l)

/-- The non-empty strict ancestor directories of a path, as `os.makedirs`
walks them when creating missing parents. -/
def properAncestors (p : String) : List String :=
  ((ancPrefixes p.data).filter (fun l => l ≠ [])).map String.mk

/-- Add each directory of the second list that is not already present. -/
def addDirs (ds : List String) : List String → List String
  | [] => ds
  | d :: rest => addDirs (if d ∈ ds then ds else ds ++ [d]) rest

/-- Effect of a successful `os.makedirs(p, ...)`: create `p` and all of its
missing ancestor directories. -/
def mkdirsFS (fs : FS) (p : String) : FS :=
  { fs with dirs := addDirs fs.dirs (properAncestors p ++ [p]) }

/-- Effect of one operation when it succeeds. -/
def applyOpT (fs : FS) : FSOp → FS
  | .makedirs p _ => mkdirsFS fs p
  | .write p c => { fs with files := setFile fs.files p c }

/-- The filesystem after a run of a trace in which no operation fails. -/
def runT (fs : FS) (ops : List FSOp) : FS :=
  List.foldl applyOpT fs ops

/-- Error-aware semantics: `os.makedirs(p, exist_ok=False)` raises
`FileExistsError` when the directory already exists, `exist_ok=True` succeeds
silently; writes succeed.  `build_structure` has no handler, so an error
aborts the rest of the trace; the error value carries the state reached. -/
def runE (fs : FS) : List FSOp → Except FS FS
  | [] => .ok fs
  | .makedirs p exOk :: rest =>
      if p ∈ fs.dirs ∧ exOk = false then .error fs
      else runE (applyOpT fs (.makedirs p exOk)) rest
  | .write p c :: rest => runE (applyOpT fs (.write p c)) rest

/-- Fault-injection semantics: the operation at index `k` of the trace fails
with a filesystem error (permissions, disk space, ...); there is no handler,
so the remaining trace is not executed and the error carries the state
reached so far. -/
def runUntilFail (k : Nat) (fs : FS) : List FSOp → Except FS FS
  | [] => .ok fs
  | op :: rest =>
      match k with
      | 0 => .error fs
      | k' + 1 => runUntilFail k' (applyOpT fs op) rest

mutual

/-- The directory paths declared by a dict under `cur`: the join of the
current path with every key whose value is a dict or a list, recursively. -/
def dirPaths (cur : String) : PyDict → List String
  | .nil => []
  | .cons n v rest => dirPathsEntry cur n v ++ dirPaths cur rest

/-- Directory paths declared by one `(name, content)` pair. -/
def dirPathsEntry (cur n : String) : PyVal → List String
  | .dict ch => pathJoin cur n :: dirPaths (pathJoin cur n) ch
  | .list _ => [pathJoin cur n]
  | .other => []

end

mutual

/-- The file paths declared by a dict under `cur`: for every list value, the
join of its directory path with each listed file name. -/
def filePaths (cur : String) : PyDict → List String
  | .nil => []
  | .cons n v rest => filePathsEntry cur n v ++ filePaths cur rest

/-- File paths declared by one `(name, content)` pair. -/
def filePathsEntry (cur n : String) : PyVal → List String
  | .dict ch => filePaths (pathJoin cur n) ch
  | .list files => files.map (fun fn => pathJoin (pathJoin cur n) fn)
  | .other => []

end

/-- The paths of the write operations of a trace, in order. -/
def writePaths : List FSOp → List String
  | [] => []
  | .write q _ :: rest => q :: writePaths rest
  | .makedirs _ _ :: rest => writePaths rest

/-- The paths passed to `os.makedirs` in a trace, in order. -/
def mkdirPaths : List FSOp → List String
  | [] => []
  | .makedirs q _ :: rest => q :: mkdirPaths rest
  | .write _ _ :: rest => mkdirPaths rest

/-- All directories a trace may create: each `makedirs` path together with
its missing ancestors. -/
def mkDirsOf : List FSOp → List String
  | [] => []
  | .makedirs q _ :: rest => (properAncestors q ++ [q]) ++ mkDirsOf rest
  | .write _ _ :: rest => mkDirsOf rest

/-- The content of the last write to `p` in a trace, if any. -/
def lastWrite : List FSOp → String → Option String
  | [], _ => none
  | op :: rest, p =>
      match lastWrite rest p with
      | some c => some c
      | none =>
          match op with
          | .write q c => if q = p then some c else none
          | .makedirs _ _ => none

/-- How many write operations of a trace target `p`. -/
def writeCount : List FSOp → String → Nat
  | [], _ => 0
  | .write q _ :: rest, p => (if q = p then 1 else 0) + writeCount rest p
  | .makedirs _ _ :: rest, p => writeCount rest p

/-- Left-biased choice on optional contents. -/
def orO (x y : Option String) : Option String :=
  match x with
  | some c => some c
  | none => y

/-- Concatenation of dicts, preserving order. -/
def appendD : PyDict → PyDict → PyDict
  | .nil, e => e
  | .cons n v rest, e => .cons n v (appendD rest e)

mutual

/-- Dict nesting depth: one recursive call of `build_structure` is made per
dict level entered. -/
def depthEntries : PyDict → Nat
  | .nil => 0
  | .cons _ v rest => max (depthVal v) (depthEntries rest)

/-- Nesting depth of a single value. -/
def depthVal : PyVal → Nat
  | .dict ch => depthEntries ch + 1
  | .list _ => 0
  | .other => 0

end

mutual

/-- `buildEntries` with an explicit recursion-depth budget: each descent into
a dict value consumes one unit of fuel, and the traversal fails (returns
`none`) if the budget is exhausted. -/
def buildEntriesFuel (fuel : Nat) (cur : String) : PyDict → Option (List FSOp)
  | .nil => some []
  | .cons n v rest =>
      match buildEntryFuel fuel cur n v, buildEntriesFuel fuel cur rest with
      | some a, some b => some (a ++ b)
      | _, _ => none

/-- Fuelled version of `buildEntry`. -/
def buildEntryFuel (fuel : Nat) (cur n : String) : PyVal → Option (List FSOp)
  | .dict ch =>
      match fuel with
      | 0 => none
      | f + 1 =>
          match buildEntriesFuel f (pathJoin cur n) ch with
          | some ops => some (FSOp.makedirs (pathJoin cur n) true :: ops)
          | none => none
  | .list files =>
      some (FSOp.makedirs (pathJoin cur n) true ::
        files.map (fun fn => FSOp.write (pathJoin (pathJoin cur n) fn) (fileContent fn)))
  | .other => some []

end

theorem runT_nil (fs : FS) : runT fs [] = fs := rfl

theorem runT_cons (fs : FS) (op : FSOp) (ops : List FSOp) :
    runT fs (op :: ops) = runT (applyOpT fs op) ops := rfl

theorem runT_append (fs : FS) (a b : List FSOp) :
    runT fs (a ++ b) = runT (runT fs a) b := by
  simp [runT, List.foldl_append]

theorem mem_addDirs (p : String) (l : List String) :
    ∀ ds : List String, (p ∈ addDirs ds l ↔ p ∈ ds ∨ p ∈ l) := by
  induction l with
  | nil => intro ds; simp [addDirs]
  | cons d rest ih =>
      intro ds
      by_cases hd : d ∈ ds
      · simp only [addDirs, if_pos hd, ih]
        constructor
        · rintro (h | h) <;> simp_all
        · rintro (h | h)
          · exact Or.inl h
          · rcases List.mem_cons.mp h with h | h
            · exact Or.inl (h ▸ hd)
            · exact Or.inr h
      · simp only [addDirs, if_neg hd, ih, List.mem_append, List.mem_singleton,
          List.mem_cons]
        tauto

theorem files_applyOpT_makedirs (fs : FS) (q : String) (b : Bool) :
    (applyOpT fs (.makedirs q b)).files = fs.files := rfl

theorem dirs_applyOpT_write (fs : FS) (q c : String) :
    (applyOpT fs (.write q c)).dirs = fs.dirs := rfl

theorem lookup_setFile (q c p : String) :
    ∀ l : List (String × String),
      lookupFile (setFile l q c) p = if q = p then some c else lookupFile l p := by
  intro l
  induction l with
  | nil => by_cases h : q = p <;> simp [setFile, lookupFile, h]
  | cons hd rest ih =>
      obtain ⟨r, c0⟩ := hd
      by_cases hrq : r = q
      · subst hrq
        by_cases hqp : r = p <;> simp [setFile, lookupFile, hqp]
      · by_cases hrp : r = p
        · subst hrp
          have hqr : ¬ q = r := fun h => hrq h.symm
          simp [setFile, lookupFile, hrq, hqr]
        · simp [setFile, lookupFile, hrq, hrp, ih]

theorem lookup_runT (p : String) :
    ∀ (ops : List FSOp) (fs : FS),
      lookupFile (runT fs ops).files p = orO (lastWrite ops p) (lookupFile fs.files p) := by
  intro ops
  induction ops with
  | nil => intro fs; simp [runT, lastWrite, orO]
  | cons op rest ih =>
      intro fs
      rw [runT_cons, ih]
      cases hr : lastWrite rest p with
      | some c => simp [lastWrite, hr, orO]
      | none =>
          cases op with
          | makedirs q b =>
              simp [lastWrite, hr, orO, files_applyOpT_makedirs]
          | write q c =>
              by_cases hqp : q = p
              · subst hqp
                simp [lastWrite, hr, orO, applyOpT, lookup_setFile]
              · simp [lastWrite, hr, orO, applyOpT, lookup_setFile, hqp]

theorem mem_writePaths_iff (p : String) :
    ∀ ops : List FSOp, p ∈ writePaths ops ↔ lastWrite ops p ≠ none := by
  intro ops
  induction ops with
  | nil => simp [writePaths, lastWrite]
  | cons op rest ih =>
      cases hr : lastWrite rest p with
      | some c =>
          have hmem : p ∈ writePaths rest := ih.mpr (by simp [hr])
          cases op with
          | makedirs q b => simp [writePaths, lastWrite, hr, hmem]
          | write q c' => simp [writePaths, lastWrite, hr, hmem]
      | none =>
          have hnmem : p ∉ writePaths rest := fun h => (ih.mp h) hr
          cases op with
          | makedirs q b => simp [writePaths, lastWrite, hr, hnmem]
          | write q c' =>
              by_cases hqp : q = p
              · subst hqp; simp [writePaths, lastWrite, hr, hnmem]
              · have hpq : ¬ p = q := fun h => hqp h.symm
                simp [writePaths, lastWrite, hr, hnmem, hqp, hpq]

theorem mem_runT_dirs (p : String) :
    ∀ (ops : List FSOp) (fs : FS),
      p ∈ (runT fs ops).dirs ↔ p ∈ fs.dirs ∨ p ∈ mkDirsOf ops := by
  intro ops
  induction ops with
  | nil => intro fs; simp [runT, mkDirsOf]
  | cons op rest ih =>
      intro fs
      rw [runT_cons, ih]
      cases op with
      | makedirs q b =>
          simp only [applyOpT, mkdirsFS, mkDirsOf, mem_addDirs, List.mem_append]
          tauto
      | write q c =>
          simp [applyOpT, mkDirsOf]

theorem writePaths_append (a b : List FSOp) :
    writePaths (a ++ b) = writePaths a ++ writePaths b := by
  induction a with
  | nil => rfl
  | cons op rest ih => cases op <;> simp [writePaths, ih]

theorem mkdirPaths_append (a b : List FSOp) :
    mkdirPaths (a ++ b) = mkdirPaths a ++ mkdirPaths b := by
  induction a with
  | nil => rfl
  | cons op rest ih => cases op <;> simp [mkdirPaths, ih]

theorem mkDirsOf_append (a b : List FSOp) :
    mkDirsOf (a ++ b) = mkDirsOf a ++ mkDirsOf b := by
  induction a with
  | nil => rfl
  | cons op rest ih => cases op <;> simp [mkDirsOf, ih]

theorem mkdirPaths_sub_mkDirsOf (q : String) :
    ∀ ops : List FSOp, q ∈ mkdirPaths ops → q ∈ mkDirsOf ops := by
  intro ops
  induction ops with
  | nil => simp [mkdirPaths]
  | cons op rest ih =>
      cases op with
      | makedirs r b =>
          intro h
          rcases List.mem_cons.mp h with h | h
          · subst h; simp [mkDirsOf]
          · simp [mkDirsOf, ih h]
      | write r c => exact fun h => ih h

theorem mem_mkDirsOf (x : String) :
    ∀ ops : List FSOp, x ∈ mkDirsOf ops →
      ∃ q, q ∈ mkdirPaths ops ∧ (x = q ∨ x ∈ properAncestors q) := by
  intro ops
  induction ops with
  | nil => simp [mkDirsOf]
  | cons op rest ih =>
      cases op with
      | makedirs r b =>
          intro h
          simp only [mkDirsOf, List.mem_append, List.mem_singleton] at h
          rcases h with (h | h) | h
          · exact ⟨r, by simp [mkdirPaths], Or.inr h⟩
          · exact ⟨r, by simp [mkdirPaths], Or.inl h⟩
          · obtain ⟨q, hq, hx⟩ := ih h
            exact ⟨q, by simp [mkdirPaths, hq], hx⟩
      | write r c =>
          intro h
          obtain ⟨q, hq, hx⟩ := ih h
          exact ⟨q, hq, hx⟩

theorem writePaths_mapWrite (f g : String → String) (files : List String) :
    writePaths (files.map fun fn => FSOp.write (f fn) (g fn)) = files.map f := by
  induction files with
  | nil => rfl
  | cons fn rest ih => simp [writePaths, ih]

theorem mkdirPaths_mapWrite (f g : String → String) (files : List String) :
    mkdirPaths (files.map fun fn => FSOp.write (f fn) (g fn)) = [] := by
  induction files with
  | nil => rfl
  | cons fn rest ih => simp [mkdirPaths, ih]

mutual

theorem writePaths_build (cur : String) (d : PyDict) :
    writePaths (buildEntries cur d) = filePaths cur d :=
  match d with
  | .nil => rfl
  | .cons n v rest => by
      show writePaths (buildEntry cur n v ++ buildEntries cur rest) =
        filePathsEntry cur n v ++ filePaths cur rest
      rw [writePaths_append, writePaths_buildEntry cur n v, writePaths_build cur rest]

theorem writePaths_buildEntry (cur n : String) (v : PyVal) :
    writePaths (buildEntry cur n v) = filePathsEntry cur n v :=
  match v with
  | .dict ch => by
      show writePaths (FSOp.makedirs (pathJoin cur n) true :: buildEntries (pathJoin cur n) ch) =
        filePaths (pathJoin cur n) ch
      rw [show writePaths (FSOp.makedirs (pathJoin cur n) true :: buildEntries (pathJoin cur n) ch) =
        writePaths (buildEntries (pathJoin cur n) ch) from rfl]
      exact writePaths_build (pathJoin cur n) ch
  | .list files => by
      show writePaths (FSOp.makedirs (pathJoin cur n) true ::
          files.map fun fn => FSOp.write (pathJoin (pathJoin cur n) fn) (fileContent fn)) =
        files.map fun fn => pathJoin (pathJoin cur n) fn
      rw [show writePaths (FSOp.makedirs (pathJoin cur n) true ::
          files.map fun fn => FSOp.write (pathJoin (pathJoin cur n) fn) (fileContent fn)) =
        writePaths (files.map fun fn =>
          FSOp.write (pathJoin (pathJoin cur n) fn) (fileContent fn)) from rfl]
      exact writePaths_mapWrite _ _ files
  | .other => rfl

end

mutual

theorem mkdirPaths_build (cur : String) (d : PyDict) :
    mkdirPaths (buildEntries cur d) = dirPaths cur d :=
  match d with
  | .nil => rfl
  | .cons n v rest => by
      show mkdirPaths (buildEntry cur n v ++ buildEntries cur rest) =
        dirPathsEntry cur n v ++ dirPaths cur rest
      rw [mkdirPaths_append, mkdirPaths_buildEntry cur n v, mkdirPaths_build cur rest]

theorem mkdirPaths_buildEntry (cur n : String) (v : PyVal) :
    mkdirPaths (buildEntry cur n v) = dirPathsEntry cur n v :=
  match v with
  | .dict ch => by
      show mkdirPaths (FSOp.makedirs (pathJoin cur n) true :: buildEntries (pathJoin cur n) ch) =
        pathJoin cur n :: dirPaths (pathJoin cur n) ch
      rw [show mkdirPaths (FSOp.makedirs (pathJoin cur n) true :: buildEntries (pathJoin cur n) ch) =
        pathJoin cur n :: mkdirPaths (buildEntries (pathJoin cur n) ch) from rfl]
      rw [mkdirPaths_build (pathJoin cur n) ch]
  | .list files => by
      show mkdirPaths (FSOp.makedirs (pathJoin cur n) true ::
          files.map fun fn => FSOp.write (pathJoin (pathJoin cur n) fn) (fileContent fn)) =
        [pathJoin cur n]
      rw [show mkdirPaths (FSOp.makedirs (pathJoin cur n) true ::
          files.map fun fn => FSOp.write (pathJoin (pathJoin cur n) fn) (fileContent fn)) =
        pathJoin cur n :: mkdirPaths (files.map fun fn =>
          FSOp.write (pathJoin (pathJoin cur n) fn) (fileContent fn)) from rfl]
      rw [mkdirPaths_mapWrite]
  | .other => rfl

end

mutual

theorem build_flags (cur : String) (d : PyDict) (q : String) (b : Bool) :
    FSOp.makedirs q b ∈ buildEntries cur d → b = true :=
  match d with
  | .nil => by intro h; simp [buildEntries] at h
  | .cons n v rest => by
      intro h
      rcases List.mem_append.mp h with h | h
      · exact build_flags_entry cur n v q b h
      · exact build_flags cur rest q b h

theorem build_flags_entry (cur n : String) (v : PyVal) (q : String) (b : Bool) :
    FSOp.makedirs q b ∈ buildEntry cur n v → b = true :=
  match v with
  | .dict ch => by
      intro h
      rcases List.mem_cons.mp h with h | h
      · cases h; rfl
      · exact build_flags (pathJoin cur n) ch q b h
  | .list files => by
      intro h
      rcases List.mem_cons.mp h with h | h
      · cases h; rfl
      · simp only [List.mem_map] at h
        obtain ⟨fn, _, hfn⟩ := h
        cases hfn
  | .other => by intro h; simp [buildEntry] at h

end

mutual

theorem write_shape (cur : String) (d : PyDict) (p c : String) :
    FSOp.write p c ∈ buildEntries cur d →
      ∃ dp fn, p = pathJoin dp fn ∧ c = fileContent fn :=
  match d with
  | .nil => by intro h; simp [buildEntries] at h
  | .cons n v rest => by
      intro h
      rcases List.mem_append.mp h with h | h
      · exact write_shape_entry cur n v p c h
      · exact write_shape cur rest p c h

theorem write_shape_entry (cur n : String) (v : PyVal) (p c : String) :
    FSOp.write p c ∈ buildEntry cur n v →
      ∃ dp fn, p = pathJoin dp fn ∧ c = fileContent fn :=
  match v with
  | .dict ch => by
      intro h
      rcases List.mem_cons.mp h with h | h
      · cases h
      · exact write_shape (pathJoin cur n) ch p c h
  | .list files => by
      intro h
      rcases List.mem_cons.mp h with h | h
      · cases h
      · simp only [List.mem_map] at h
        obtain ⟨fn, _, hfn⟩ := h
        obtain ⟨hp, hc⟩ := FSOp.write.inj hfn
        exact ⟨pathJoin cur n, fn, hp.symm, hc.symm⟩
  | .other => by intro h; simp [buildEntry] at h

end

theorem runE_ok (ops : List FSOp) :
    ∀ fs : FS, (∀ q b, FSOp.makedirs q b ∈ ops → b = true) →
      runE fs ops = .ok (runT fs ops) := by
  induction ops with
  | nil => intro fs _; rfl
  | cons op rest ih =>
      intro fs h
      cases op with
      | makedirs q b =>
          have hb : b = true := h q b (List.mem_cons_self _ _)
          subst hb
          rw [show runE fs (FSOp.makedirs q true :: rest) =
            runE (applyOpT fs (FSOp.makedirs q true)) rest from by
              simp [runE]]
          rw [runT_cons]
          exact ih _ (fun q' b' hm => h q' b' (List.mem_cons_of_mem _ hm))
      | write p c =>
          rw [show runE fs (FSOp.write p c :: rest) =
            runE (applyOpT fs (FSOp.write p c)) rest from rfl]
          rw [runT_cons]
          exact ih _ (fun q' b' hm => h q' b' (List.mem_cons_of_mem _ hm))

theorem runUntilFail_error (ops : List FSOp) :
    ∀ (k : Nat) (fs : FS), k < ops.length →
      runUntilFail k fs ops = .error (runT fs (ops.take k)) := by
  induction ops with
  | nil => intro k fs h; simp at h
  | cons op rest ih =>
      intro k fs h
      cases k with
      | zero => rfl
      | succ k' =>
          rw [show runUntilFail (k' + 1) fs (op :: rest) =
            runUntilFail k' (applyOpT fs op) rest from rfl]
          rw [show (op :: rest).take (k' + 1) = op :: rest.take k' from rfl]
          rw [runT_cons]
          exact ih k' _ (Nat.lt_of_succ_lt_succ h)

theorem lastWrite_none_of_count_zero (p : String) :
    ∀ ops : List FSOp, writeCount ops p = 0 → lastWrite ops p = none := by
  intro ops
  induction ops with
  | nil => intro _; rfl
  | cons op rest ih =>
      intro h
      cases op with
      | makedirs q b =>
          rw [show writeCount (FSOp.makedirs q b :: rest) p = writeCount rest p from rfl] at h
          simp [lastWrite, ih h]
      | write q c =>
          rw [show writeCount (FSOp.write q c :: rest) p =
            (if q = p then 1 else 0) + writeCount rest p from rfl] at h
          by_cases hqp : q = p
          · simp [hqp] at h
          · have hr : writeCount rest p = 0 := by
              simpa [hqp] using h
            simp [lastWrite, ih hr, hqp]

theorem count_pos_of_mem_write (p c : String) :
    ∀ ops : List FSOp, FSOp.write p c ∈ ops → 0 < writeCount ops p := by
  intro ops
  induction ops with
  | nil => intro h; simp at h
  | cons op rest ih =>
      intro hmem
      cases op with
      | makedirs q b =>
          have hr : FSOp.write p c ∈ rest := by
            rcases List.mem_cons.mp hmem with heq | hr
            · simp at heq
            · exact hr
          simpa [writeCount] using ih hr
      | write q c' =>
          rw [show writeCount (FSOp.write q c' :: rest) p =
            (if q = p then 1 else 0) + writeCount rest p from rfl]
          rcases List.mem_cons.mp hmem with heq | hr
          · obtain ⟨hq, hc⟩ := FSOp.write.inj heq.symm
            simp [hq]
          · have := ih hr
            omega

theorem lastWrite_eq_of_unique (p c : String) :
    ∀ ops : List FSOp, FSOp.write p c ∈ ops → writeCount ops p = 1 →
      lastWrite ops p = some c := by
  intro ops
  induction ops with
  | nil => intro h _; simp at h
  | cons op rest ih =>
      intro hmem hcount
      cases op with
      | makedirs q b =>
          have hr : FSOp.write p c ∈ rest := by
            rcases List.mem_cons.mp hmem with heq | hr
            · simp at heq
            · exact hr
          have hc : writeCount rest p = 1 := by
            rw [show writeCount (FSOp.makedirs q b :: rest) p = writeCount rest p from rfl]
              at hcount
            exact hcount
          simp [lastWrite, ih hr hc]
      | write q c' =>
          rw [show writeCount (FSOp.write q c' :: rest) p =
            (if q = p then 1 else 0) + writeCount rest p from rfl] at hcount
          by_cases hqp : q = p
          · have hz : writeCount rest p = 0 := by
              rw [if_pos hqp] at hcount
              omega
            have hln : lastWrite rest p = none := lastWrite_none_of_count_zero p rest hz
            have hcc : c' = c := by
              rcases List.mem_cons.mp hmem with heq | hr
              · obtain ⟨hq, hc⟩ := FSOp.write.inj heq.symm
                exact hc
              · exact absurd hz (by
                  have := count_pos_of_mem_write p c rest hr
                  omega)
            subst hcc
            simp [lastWrite, hln, hqp]
          · have ho : writeCount rest p = 1 := by
              rw [if_neg hqp] at hcount
              omega
            have hr : FSOp.write p c ∈ rest := by
              rcases List.mem_cons.mp hmem with heq | hr
              · obtain ⟨hq, _⟩ := FSOp.write.inj heq.symm
                exact absurd hq hqp
              · exact hr
            simp [lastWrite, ih hr ho]

mutual

theorem fuel_entries (d : PyDict) :
    ∀ (fuel : Nat) (cur : String), depthEntries d ≤ fuel →
      buildEntriesFuel fuel cur d = some (buildEntries cur d) :=
  match d with
  | .nil => by intro fuel cur _; rfl
  | .cons n v rest => by
      intro fuel cur h
      have h1 : depthVal v ≤ fuel := le_trans (le_max_left _ _) h
      have h2 : depthEntries rest ≤ fuel := le_trans (le_max_right _ _) h
      rw [show buildEntriesFuel fuel cur (.cons n v rest) =
        (match buildEntryFuel fuel cur n v, buildEntriesFuel fuel cur rest with
         | some a, some b => some (a ++ b)
         | _, _ => none) from rfl]
      rw [fuel_entry v fuel cur n h1, fuel_entries rest fuel cur h2]
      rfl

theorem fuel_entry (v : PyVal) :
    ∀ (fuel : Nat) (cur n : String), depthVal v ≤ fuel →
      buildEntryFuel fuel cur n v = some (buildEntry cur n v) :=
  match v with
  | .dict ch => by
      intro fuel cur n h
      cases fuel with
      | zero => exact absurd h (by simp [depthVal])
      | succ f =>
          have hch : depthEntries ch ≤ f := Nat.le_of_succ_le_succ h
          rw [show buildEntryFuel (f + 1) cur n (.dict ch) =
            (match buildEntriesFuel f (pathJoin cur n) ch with
             | some ops => some (FSOp.makedirs (pathJoin cur n) true :: ops)
             | none => none) from rfl]
          rw [fuel_entries ch f (pathJoin cur n) hch]
          rfl
  | .list files => by intro fuel cur n _; rfl
  | .other => by intro fuel cur n _; rfl

end

/-- True when the first string is an initial segment of the second. -/
def listStartsWith : List Char → List Char → Bool
  | [], _ => true
  | _ :: _, [] => false
  | a :: as, b :: bs => a == b && listStartsWith as bs

/-- True when `pre` is an initial segment of `s`. -/
def strStartsWith (pre s : String) : Bool :=
  listStartsWith pre.data s.data

/-- Skipping an entry whose value is neither a dict nor a list leaves the
whole operation trace of the surrounding dict unchanged. -/
theorem buildEntries_appendD_skip (cur n : String) (post : PyDict) :
    ∀ pre : PyDict,
      buildEntries cur (appendD pre (PyDict.cons n PyVal.other post)) =
        buildEntries cur (appendD pre post)
  | .nil => rfl
  | .cons m v rest => by
      show buildEntry cur m v ++ buildEntries cur (appendD rest (PyDict.cons n PyVal.other post)) =
        buildEntry cur m v ++ buildEntries cur (appendD rest post)
      rw [buildEntries_appendD_skip cur n post rest]

/-- C1 (counterexample): for the file name `a.md.md`, the generated content
uses the title `a` — line 46 removes every occurrence of `.md` — whereas the
claim's title rule (strip one trailing `.md`, then underscores to spaces)
yields `a.md`, so the claimed content equation fails. -/
theorem claim_C1_counterexample :
    buildEntry "/b" "D" (PyVal.list ["a.md.md"]) =
      [FSOp.makedirs "/b/D" true,
       FSOp.write "/b/D/a.md.md" "# a\n\nTemplate content for a.md.md."] ∧
    "# a\n\nTemplate content for a.md.md." ≠
      "# " ++ specTitle "a.md.md" ++ "\n\nTemplate content for " ++ "a.md.md" ++ "." :=
  ⟨by decide, by decide⟩

/-- C1 (amended): for every file name in a Leaf's file list, the generated
file's content equals `"# " + title + "\n\n" + "Template content for " +
fileName + "."`, where `title` is `fileName` with every occurrence of the
substring `.md` removed in one left-to-right pass and then every underscore
replaced by a space (`pyTitle`). -/
theorem claim_C1 (cur : String) (d : PyDict) (p c : String)
    (h : FSOp.write p c ∈ buildEntries cur d) :
    ∃ dp fn, p = pathJoin dp fn ∧
      c = "# " ++ pyTitle fn ++ "\n\nTemplate content for " ++ fn ++ "." := by
  obtain ⟨dp, fn, hp, hc⟩ := write_shape cur d p c h
  exact ⟨dp, fn, hp, by rw [hc]; rfl⟩

/-- C1 witness: instantiating the amended claim on a one-leaf dict. -/
theorem claim_C1_witness :
    ∃ dp fn, "/b/D/a.md.md" = pathJoin dp fn ∧
      fileContent "a.md.md" = "# " ++ pyTitle fn ++ "\n\nTemplate content for " ++ fn ++ "." :=
  claim_C1 "/b" (PyDict.cons "D" (PyVal.list ["a.md.md"]) PyDict.nil) "/b/D/a.md.md"
    (fileContent "a.md.md") (by decide)

/-- C2: for every dict and base path, after a run in which no filesystem
operation fails, a directory exists at the joined path of every key
(recursively, for dict and list values alike), and every file name listed
under a list value exists as a file at the join of that list's directory
path with the file name. -/
theorem claim_C2 (cur : String) (d : PyDict) (fs : FS) :
    (∀ p, p ∈ dirPaths cur d → p ∈ (runT fs (buildEntries cur d)).dirs) ∧
    (∀ p, p ∈ filePaths cur d →
      ∃ c, lookupFile (runT fs (buildEntries cur d)).files p = some c) := by
  constructor
  · intro p hp
    have h1 : p ∈ mkdirPaths (buildEntries cur d) := by
      rw [mkdirPaths_build]
      exact hp
    exact (mem_runT_dirs p _ fs).mpr (Or.inr (mkdirPaths_sub_mkDirsOf p _ h1))
  · intro p hp
    have h1 : p ∈ writePaths (buildEntries cur d) := by
      rw [writePaths_build]
      exact hp
    obtain ⟨c, hc⟩ := Option.ne_none_iff_exists'.mp ((mem_writePaths_iff p _).mp h1)
    refine ⟨c, ?_⟩
    rw [lookup_runT, hc]
    rfl

/-- C2 witness: on the hardcoded template under `/tmp/x`, the `Archive`
directory and the `Timesheet.md` file exist after a run from an empty
filesystem. -/
theorem claim_C2_witness :
    "/tmp/x/Archive" ∈ (runT ⟨[], []⟩ (buildEntries "/tmp/x" template)).dirs ∧
    (∃ c, lookupFile (runT (⟨[], []⟩ : FS) (buildEntries "/tmp/x" template)).files
      "/tmp/x/Work/Admin/Timesheet.md" = some c) :=
  ⟨(claim_C2 "/tmp/x" template ⟨[], []⟩).1 _ (by decide),
   (claim_C2 "/tmp/x" template ⟨[], []⟩).2 _ (by decide)⟩

/-- C3: a second run of the same trace against the resulting filesystem
raises no error — every `os.makedirs` of the trace passes `exist_ok=True`,
so pre-existing directories are accepted silently — and leaves every file
content exactly as after the first run. -/
theorem claim_C3 (cur : String) (d : PyDict) (fs : FS) :
    runE (runT fs (buildEntries cur d)) (buildEntries cur d) =
      .ok (runT (runT fs (buildEntries cur d)) (buildEntries cur d)) ∧
    ∀ p, lookupFile (runT (runT fs (buildEntries cur d)) (buildEntries cur d)).files p =
      lookupFile (runT fs (buildEntries cur d)).files p := by
  constructor
  · exact runE_ok _ _ (fun q b hm => build_flags cur d q b hm)
  · intro p
    rw [lookup_runT, lookup_runT]
    cases h : lastWrite (buildEntries cur d) p <;> simp [orO, h]

/-- C4: if the operation at position `k` of the traversal fails, the error
propagates unhandled, the operations after position `k` are not performed,
and the state reached is exactly the run of the first `k` operations — no
cleanup or rollback. -/
theorem claim_C4 (cur : String) (d : PyDict) (fs : FS) (k : Nat)
    (h : k < (buildEntries cur d).length) :
    runUntilFail k fs (buildEntries cur d) =
      .error (runT fs ((buildEntries cur d).take k)) :=
  runUntilFail_error (buildEntries cur d) k fs h

/-- C4 witness: failing the fourth operation of the template run. -/
theorem claim_C4_witness :
    runUntilFail 3 ⟨[], []⟩ (buildEntries "/tmp/x" template) =
      .error (runT ⟨[], []⟩ ((buildEntries "/tmp/x" template).take 3)) :=
  claim_C4 "/tmp/x" template ⟨[], []⟩ 3 (by decide)

set_option linter.unusedVariables false in
/-- C5: if a file pre-exists at a path with content different from the
generated one, and the traversal writes that path (exactly once — template
names are unique path segments, so distinct template positions yield
distinct paths), then after the run the file holds the canonical generated
content of its file name. -/
theorem claim_C5 (cur : String) (d : PyDict) (fs : FS) (p c c0 : String)
    (hpre : lookupFile fs.files p = some c0)
    (hdiff : c0 ≠ c)
    (hmem : FSOp.write p c ∈ buildEntries cur d)
    (huniq : writeCount (buildEntries cur d) p = 1) :
    lookupFile (runT fs (buildEntries cur d)).files p = some c ∧
    ∃ dp fn, p = pathJoin dp fn ∧ c = fileContent fn := by
  have hlast : lastWrite (buildEntries cur d) p = some c :=
    lastWrite_eq_of_unique p c _ hmem huniq
  constructor
  · rw [lookup_runT, hlast]
    rfl
  · exact write_shape cur d p c hmem

/-- C5 witness: a pre-existing file `/b/D/a_b.md` holding `old` is
overwritten with the canonical content for `a_b.md`. -/
theorem claim_C5_witness :
    lookupFile (runT ⟨[], [("/b/D/a_b.md", "old")]⟩
      (buildEntries "/b" (PyDict.cons "D" (PyVal.list ["a_b.md"]) PyDict.nil))).files
      "/b/D/a_b.md" = some (fileContent "a_b.md") ∧
    ∃ dp fn, "/b/D/a_b.md" = pathJoin dp fn ∧ fileContent "a_b.md" = fileContent fn :=
  claim_C5 "/b" (PyDict.cons "D" (PyVal.list ["a_b.md"]) PyDict.nil)
    ⟨[], [("/b/D/a_b.md", "old")]⟩ "/b/D/a_b.md" (fileContent "a_b.md") "old"
    (by decide) (by decide) (by decide) (by decide)

set_option maxRecDepth 100000 in
/-- C6: after a run of the hardcoded template against base path `/tmp/x`
from an empty filesystem, `/tmp/x/Archive` exists as a directory and is
empty: no directory and no file of the result lies strictly inside it. -/
theorem claim_C6 :
    "/tmp/x/Archive" ∈ (runT ⟨[], []⟩ (createTemplate "/tmp/x")).dirs ∧
    ((runT (⟨[], []⟩ : FS) (createTemplate "/tmp/x")).dirs.all
      (fun q => !(strStartsWith "/tmp/x/Archive/" q)) = true) ∧
    ((runT (⟨[], []⟩ : FS) (createTemplate "/tmp/x")).files.all
      (fun e => !(strStartsWith "/tmp/x/Archive/" e.1)) = true) :=
  ⟨by decide, by rfl, by rfl⟩

/-- C7: the traversal of any finite dict terminates, and a recursion-depth
budget equal to the dict's nesting depth suffices: the fuelled traversal,
which consumes one unit per `build_structure` recursion into a dict value
and fails on exhaustion, completes with exactly the operations of the
unbounded traversal. -/
theorem claim_C7 (fuel : Nat) (cur : String) (d : PyDict)
    (h : depthEntries d ≤ fuel) :
    buildEntriesFuel fuel cur d = some (buildEntries cur d) :=
  fuel_entries d fuel cur h

/-- C7 witness: the hardcoded template has nesting depth 2 below the root
call, and fuel 2 completes its traversal. -/
theorem claim_C7_witness :
    depthEntries template ≤ 2 ∧
    buildEntriesFuel 2 "/tmp/x" template = some (buildEntries "/tmp/x" template) :=
  ⟨by decide, claim_C7 2 "/tmp/x" template (by decide)⟩

/-- C8: an entry whose value is neither a dict nor a list is silently
skipped: the operation trace with the entry present equals the trace with
the entry removed, wherever the entry occurs in the dict, so no directory or
file is created for it, no error is raised, and all other entries are
processed as before. -/
theorem claim_C8 (cur : String) (pre post : PyDict) (n : String) :
    buildEntries cur (appendD pre (PyDict.cons n PyVal.other post)) =
      buildEntries cur (appendD pre post) :=
  buildEntries_appendD_skip cur n post pre

set_option maxRecDepth 100000 in
/-- C9 (counterexample): starting from an empty filesystem, the run of the
hardcoded template under base path `/tmp/x` creates the directory `/tmp`,
which is not among the joined template paths — `os.makedirs` creates the
missing ancestors of each joined path, including the base path and its
parents. -/
theorem claim_C9_counterexample :
    "/tmp" ∈ (runT ⟨[], []⟩ (createTemplate "/tmp/x")).dirs ∧
    "/tmp" ∉ dirPaths "/tmp/x" template ∧
    "/tmp" ∉ filePaths "/tmp/x" template ∧
    "/tmp" ∉ (⟨[], []⟩ : FS).dirs :=
  ⟨by decide, by decide, by decide, by decide⟩

/-- C9 (amended): a run of build only creates directories at the joined
template paths and at ancestors of those paths (`os.makedirs` creates
missing parents), and only writes files at the joined file paths; every
path that is neither a joined directory path, nor an ancestor of one, nor a
joined file path is left unchanged — it exists as a directory afterwards
iff it did before, and its file content is unchanged. -/
theorem claim_C9 (cur : String) (d : PyDict) (fs : FS) (p : String)
    (hd : p ∉ dirPaths cur d)
    (ha : ∀ q ∈ dirPaths cur d, p ∉ properAncestors q)
    (hf : p ∉ filePaths cur d) :
    (p ∈ (runT fs (buildEntries cur d)).dirs ↔ p ∈ fs.dirs) ∧
    lookupFile (runT fs (buildEntries cur d)).files p = lookupFile fs.files p := by
  constructor
  · rw [mem_runT_dirs]
    constructor
    · rintro (h | h)
      · exact h
      · obtain ⟨q, hq, hx⟩ := mem_mkDirsOf p _ h
        rw [mkdirPaths_build] at hq
        rcases hx with hx | hx
        · subst hx
          exact absurd hq hd
        · exact absurd hx (ha q hq)
    · exact fun h => Or.inl h
  · have hnw : p ∉ writePaths (buildEntries cur d) := by
      rw [writePaths_build]
      exact hf
    have hln : lastWrite (buildEntries cur d) p = none := by
      by_contra hc
      exact hnw ((mem_writePaths_iff p _).mpr hc)
    rw [lookup_runT, hln]
    rfl

/-- C9 witness: a pre-existing directory `/b/keep` and file `/b/note.txt`
not named by a one-branch dict survive a run unchanged. -/
theorem claim_C9_witness :
    ("/b/keep" ∈ (runT ⟨["/b/keep"], [("/b/note.txt", "x")]⟩
        (buildEntries "/b" (PyDict.cons "A" (PyVal.dict PyDict.nil) PyDict.nil))).dirs ↔
      "/b/keep" ∈ (⟨["/b/keep"], [("/b/note.txt", "x")]⟩ : FS).dirs) ∧
    lookupFile (runT ⟨["/b/keep"], [("/b/note.txt", "x")]⟩
        (buildEntries "/b" (PyDict.cons "A" (PyVal.dict PyDict.nil) PyDict.nil))).files
        "/b/keep" =
      lookupFile (⟨["/b/keep"], [("/b/note.txt", "x")]⟩ : FS).files "/b/keep" :=
  claim_C9 "/b" (PyDict.cons "A" (PyVal.dict PyDict.nil) PyDict.nil)
    ⟨["/b/keep"], [("/b/note.txt", "x")]⟩ "/b/keep" (by decide) (by decide) (by decide)

/-- C10: `create_template` is deterministic: its operation trace is a
function of the base path alone, and the content found at any written file
path after a run does not depend on the prior filesystem state, so two runs
write identical content to every generated file. -/
theorem claim_C10 (b : String) (fs1 fs2 : FS) (p : String)
    (h : p ∈ writePaths (createTemplate b)) :
    (lookupFile (runT fs1 (createTemplate b)).files p).isSome = true ∧
    lookupFile (runT fs1 (createTemplate b)).files p =
      lookupFile (runT fs2 (createTemplate b)).files p := by
  obtain ⟨c, hc⟩ := Option.ne_none_iff_exists'.mp ((mem_writePaths_iff p _).mp h)
  constructor
  · rw [lookup_runT, hc]
    rfl
  · rw [lookup_runT, lookup_runT, hc]
    rfl

set_option maxRecDepth 100000 in
/-- C10 witness: the file `One_on_One.md` gets the same content whether the
run starts from an empty filesystem or from one already holding junk at its
path. -/
theorem claim_C10_witness :
    (lookupFile (runT ⟨[], []⟩ (createTemplate "/tmp/x")).files
        "/tmp/x/Work/Meetings/One_on_One.md").isSome = true ∧
    lookupFile (runT ⟨[], []⟩ (createTemplate "/tmp/x")).files
        "/tmp/x/Work/Meetings/One_on_One.md" =
      lookupFile (runT ⟨["/z"], [("/tmp/x/Work/Meetings/One_on_One.md", "junk")]⟩
        (createTemplate "/tmp/x")).files "/tmp/x/Work/Meetings/One_on_One.md" :=
  claim_C10 "/tmp/x" ⟨[], []⟩ ⟨["/z"], [("/tmp/x/Work/Meetings/One_on_One.md", "junk")]⟩
    "/tmp/x/Work/Meetings/One_on_One.md" (by decide)

/-- C3 witness: the second run of the template build raises no error. -/
theorem claim_C3_witness :
    runE (runT ⟨[], []⟩ (buildEntries "/tmp/x" template)) (buildEntries "/tmp/x" template) =
      .ok (runT (runT ⟨[], []⟩ (buildEntries "/tmp/x" template))
        (buildEntries "/tmp/x" template)) :=
  (claim_C3 "/tmp/x" template ⟨[], []⟩).1
